import Mathlib

/-!
Shallow embedding of the Tyro Sierra-API proxy (src/main.go) and proofs
about its token broker, status handler and raw proxy rewriter.

The token broker is the goroutine `tokener` (src/main.go:327-427) together
with the two unbuffered channels `tokenChan` and `refreshTokenChan`
(src/main.go:75-77, 95-96).  Its concurrent behaviour is embedded as an
executable labelled transition system below.  The request handlers
(`statusHandler`, src/main.go:165-294, and `rawRewriter`,
src/main.go:296-325) are embedded as pure functions that record their
externally visible actions.
-/

namespace Tyro

/-- Control-flow phase of the `tokener` goroutine (src/main.go:327-427).
`selecting` : the loop is blocked at the `select` (src/main.go:338),
ready to receive from `refreshTokenChan` or to send `token` on `tokenChan`.
`refreshing` : the loop is inside the `case <-refreshTokenChan` body
performing the token-endpoint call; the interim goroutine started at
src/main.go:345 serves the captured `oldToken` on `tokenChan`.
`dead` : the loop has executed one of the `return` statements on the
failure paths (src/main.go:388, 394, 406); the interim goroutine was never
stopped and keeps serving `oldToken` forever. -/
inductive Phase where
  | selecting
  | refreshing
  | dead
deriving DecidableEq

/-- State of the broker subsystem.
`token` is the `tokener` local variable `token` (src/main.go:335).
`oldToken` is the interim goroutine's captured `oldToken`
(src/main.go:347); it is meaningful in phases `refreshing` and `dead`.
`pending` counts senders currently blocked on the unbuffered
`refreshTokenChan` (the initial send at src/main.go:146, the 401 path at
src/main.go:223, and the expiry timer at src/main.go:420). -/
structure BrokerState where
  token : String
  oldToken : String
  phase : Phase
  pending : Nat
deriving DecidableEq

/-- Events of the broker transition system.
`trigger` : a goroutine begins a send on `refreshTokenChan` (a call of
the spec's `triggerRefresh()`).
`recvTrigger` : the `select` receives a pending trigger
(src/main.go:339), starting a refresh: the token-endpoint call is now in
flight.
`get s` : a receive from `tokenChan` completes with value `s` (the
spec's `get()`), served either by the `select` (src/main.go:423) or by
the interim goroutine (src/main.go:351).
`ok t` : the token-endpoint call succeeds, the body decodes, the interim
goroutine is stopped (src/main.go:411-412) and `token` is set to the
fetched access token `t` (src/main.go:414).
`fail` : the token-endpoint call fails (transport error src/main.go:383,
non-200 src/main.go:391, or decode error src/main.go:401): `token` is
set to `""` and the goroutine returns. -/
inductive Ev where
  | trigger
  | recvTrigger
  | get (s : String)
  | ok (t : String)
  | fail
deriving DecidableEq

/-- The value a `get()` (receive from `tokenChan`) returns in a given
state: in phase `selecting` the main loop serves `token`
(src/main.go:423); in phases `refreshing` and `dead` the only server of
`tokenChan` is the interim goroutine, which serves `oldToken`
(src/main.go:351). -/
def observe (st : BrokerState) : String :=
  match st.phase with
  | Phase.selecting => st.token
  | Phase.refreshing => st.oldToken
  | Phase.dead => st.oldToken

/-- Broker state right after `go tokener()` (src/main.go:145): the local
`token` is `"uninitialized"` (src/main.go:335) and the loop reaches the
`select`. -/
def initState : BrokerState := ⟨"uninitialized", "uninitialized", Phase.selecting, 0⟩

/-- One transition of the broker subsystem.  `none` means the event is
not enabled in this state (the corresponding goroutine would stay
blocked).  Faithfulness notes:
a `recvTrigger` is only possible while the loop sits at the `select`
(phase `selecting`) and some sender is blocked on the unbuffered
`refreshTokenChan`; it captures `oldToken := token` (src/main.go:347)
and enters the refresh body.
`ok t` models src/main.go:411-421: interim stopped, `token := t`, loop
returns to the `select` (the expiry timer it also spawns is just a
future `trigger`, already covered by the environment event `trigger`).
`fail` models the three failure paths: `token = ""` followed by `return`
(src/main.go:384-388, 392-394, 402-406); the interim goroutine is NOT
stopped on these paths, so the phase becomes `dead` with `oldToken`
still being served. -/
def step (st : BrokerState) : Ev → Option BrokerState
  | Ev.trigger => some ⟨st.token, st.oldToken, st.phase, st.pending + 1⟩
  | Ev.recvTrigger =>
      if st.phase = Phase.selecting ∧ 0 < st.pending then
        some ⟨st.token, st.token, Phase.refreshing, st.pending - 1⟩
      else none
  | Ev.get s => if s = observe st then some st else none
  | Ev.ok t =>
      if st.phase = Phase.refreshing then
        some ⟨t, st.oldToken, Phase.selecting, st.pending⟩
      else none
  | Ev.fail =>
      if st.phase = Phase.refreshing then
        some ⟨"", st.oldToken, Phase.dead, st.pending⟩
      else none

/-- Run a sequence of events from a state; `none` if some event is not
enabled where it occurs. -/
def run (st : BrokerState) : List Ev → Option BrokerState
  | [] => some st
  | e :: tr =>
      match step st e with
      | some st1 => run st1 tr
      | none => none

/-- Is this event the start of a refresh (the `select` receiving from
`refreshTokenChan`)? -/
def isStart : Ev → Bool
  | Ev.recvTrigger => true
  | _ => false

/-- Is this event the completion (success or failure) of a refresh? -/
def isDone : Ev → Bool
  | Ev.ok _ => true
  | Ev.fail => true
  | _ => false

/-- Is this event a successful refresh completion? -/
def isOk : Ev → Bool
  | Ev.ok _ => true
  | _ => false

/-- Number of refresh starts in a trace. -/
def starts (tr : List Ev) : Nat := tr.countP isStart

/-- Number of refresh completions in a trace. -/
def dones (tr : List Ev) : Nat := tr.countP isDone

/-- Number of token-endpoint network calls in flight in a state: the
call is performed inline in the single `tokener` goroutine, exactly while
it is in the refresh body. -/
def flightN (st : BrokerState) : Nat := if st.phase = Phase.refreshing then 1 else 0

/-- Go `time.Time` restricted to the fields relevant here.  A value
decoded from the `duedate` JSON field (src/main.go:231); when the field
is absent the decoder leaves the zero value. -/
structure GoTime where
  year : Nat
  month : Nat
  day : Nat
  hour : Nat
  minute : Nat
  second : Nat
deriving DecidableEq

/-- The zero value of Go `time.Time`: January 1, year 1, 00:00:00. -/
def zeroGoTime : GoTime := ⟨1, 1, 1, 0, 0, 0⟩

/-- Go `Time.IsZero` (used at src/main.go:263). -/
def GoTime.isZero (t : GoTime) : Bool := decide (t = zeroGoTime)

/-- Go month names as produced by the layout word `January`. -/
def monthName : Nat → String
  | 1 => "January"
  | 2 => "February"
  | 3 => "March"
  | 4 => "April"
  | 5 => "May"
  | 6 => "June"
  | 7 => "July"
  | 8 => "August"
  | 9 => "September"
  | 10 => "October"
  | 11 => "November"
  | 12 => "December"
  | _ => ""

/-- Go's year formatting for the layout word `2006`: the year
zero-padded on the left to at least four digits. -/
def pad4 (n : Nat) : String := ⟨List.replicate (4 - (Nat.repr n).length) '0'⟩ ++ Nat.repr n

/-- Go `t.Format("January 2, 2006")` (src/main.go:266): full month name,
day of month without padding, comma, year padded to four digits. -/
def formatJanuary2_2006 (t : GoTime) : String :=
  monthName t.month ++ " " ++ Nat.repr t.day ++ ", " ++ pad4 t.year

/-- Go `strings.Replace(s, "|a", " ", -1)` (src/main.go:261) on the
character list: scan left to right, replacing each non-overlapping
occurrence of the two-character pattern with a single space. -/
def goReplaceBarA : List Char → List Char
  | [] => []
  | [c] => [c]
  | c :: c2 :: rest2 =>
      if c = '|' ∧ c2 = 'a' then ' ' :: goReplaceBarA rest2
      else c :: goReplaceBarA (c2 :: rest2)

/-- Go `strings.Replace(s, "|b", " ", -1)` (src/main.go:262). -/
def goReplaceBarB : List Char → List Char
  | [] => []
  | [c] => [c]
  | c :: c2 :: rest2 =>
      if c = '|' ∧ c2 = 'b' then ' ' :: goReplaceBarB rest2
      else c :: goReplaceBarB (c2 :: rest2)

/-- The call-number normalization of src/main.go:260-262: replace all
occurrences of `|a`, then all occurrences of `|b`, each by one space. -/
def normalizeCallNumber (s : String) : String := ⟨goReplaceBarB (goReplaceBarA s.data)⟩

/-- One decoded entry of the upstream item response (src/main.go:227-237). -/
structure ItemEntry where
  callNumber : String
  dueDate : GoTime
  locationName : String
deriving DecidableEq

/-- One entry of the emitted status JSON (src/main.go:248-252). -/
structure OutEntry where
  callNumber : String
  status : String
  location : String
deriving DecidableEq

/-- The per-entry transformation of src/main.go:258-271. -/
def transformEntry (e : ItemEntry) : OutEntry :=
  ⟨normalizeCallNumber e.callNumber,
   if e.dueDate.isZero then "IN LIBRARY" else "DUE " ++ formatJanuary2_2006 e.dueDate,
   e.locationName⟩

/-- Characters of a list up to (excluding) the first slash: Go
`strings.Split(s, "/")[0]`. -/
def takeUntilSlash : List Char → List Char
  | [] => []
  | c :: rest => if c = '/' then [] else c :: takeUntilSlash rest

/-- Bib ID extraction of src/main.go:181:
`strings.Split(r.URL.Path[len("/status/"):], "/")[0]` — drop the
8-character prefix, keep up to the next slash. -/
def extractBibID (p : String) : String := ⟨takeUntilSlash (p.data.drop 8)⟩

/-- The environment's behaviour for the single upstream GET a status
request may issue: transport failure (src/main.go:213), or a response
with a status code and a decode outcome for its body (`none` models
malformed JSON at src/main.go:241). -/
inductive Upstream where
  | transportError
  | resp (statusCode : Nat) (decoded : Option (List ItemEntry))
deriving DecidableEq

/-- Externally visible actions of `statusHandler`, in program order.
`callItem b` : the GET against the item endpoint is issued
(src/main.go:212).  `wrote n` : a response with HTTP status `n` is
written.  `sendTrigger` : a send on `refreshTokenChan` is initiated
(src/main.go:223). -/
inductive HEv where
  | callItem (bibID : String)
  | wrote (status : Nat)
  | sendTrigger
deriving DecidableEq

/-- Result of a status request: the ordered action list and the decoded
body emitted on success. -/
structure StatusResult where
  events : List HEv
  body : Option (List OutEntry)
deriving DecidableEq

/-- The `statusHandler` (src/main.go:165-294) as a function of the token
obtained from `get()`, the request path, and the upstream behaviour.
Control flow follows the source exactly: sentinel-token checks first
(src/main.go:169-179), then the empty-bib-ID check (src/main.go:183),
then the upstream call; a 401 is checked before the body is decoded
(src/main.go:220); on success the entries are transformed and written
with status 200. -/
def statusHandler (token : String) (p : String) (up : Upstream) : StatusResult :=
  if token = "uninitialized" then ⟨[HEv.wrote 500], none⟩
  else if token = "" then ⟨[HEv.wrote 500], none⟩
  else if extractBibID p = "" then ⟨[HEv.wrote 400], none⟩
  else
    match up with
    | Upstream.transportError => ⟨[HEv.callItem (extractBibID p), HEv.wrote 500], none⟩
    | Upstream.resp code decoded =>
        if code = 401 then
          ⟨[HEv.callItem (extractBibID p), HEv.wrote 500, HEv.sendTrigger], none⟩
        else
          match decoded with
          | none => ⟨[HEv.callItem (extractBibID p), HEv.wrote 500], none⟩
          | some entries =>
              ⟨[HEv.callItem (extractBibID p), HEv.wrote 200],
               some (entries.map transformEntry)⟩

/-- Split a character list at every slash; always returns at least one
(possibly empty) segment, like Go `strings.Split(s, "/")`. -/
def splitSlash : List Char → List (List Char)
  | [] => [[]]
  | c :: rest =>
      if c = '/' then [] :: splitSlash rest
      else
        match splitSlash rest with
        | [] => [[c]]
        | s :: ss => (c :: s) :: ss

/-- Join segments with slashes (inverse of `splitSlash`). -/
def joinSlash : List (List Char) → List Char
  | [] => []
  | [s] => s
  | s :: ss => s ++ '/' :: joinSlash ss

/-- The segment pass of Go `path.Clean`: drop empty and `.` segments;
on `..` pop the last kept segment, except that `..` disappears at the
root of a rooted path and accumulates at the front of a relative path.
`acc` holds the kept segments in reverse. -/
def cleanSegs (rooted : Bool) : List (List Char) → List (List Char) → List (List Char)
  | acc, [] => acc.reverse
  | acc, seg :: rest =>
      if seg = [] ∨ seg = ['.'] then cleanSegs rooted acc rest
      else if seg = ['.', '.'] then
        match acc with
        | [] => if rooted then cleanSegs rooted [] rest else cleanSegs rooted [seg] rest
        | top :: acc2 =>
            if top = ['.', '.'] then cleanSegs rooted (seg :: acc) rest
            else cleanSegs rooted acc2 rest
      else cleanSegs rooted (seg :: acc) rest

/-- Go `path.Clean` on a character list: purely lexical cleaning — the
result has no empty, `.` (or, when rooted, `..`) segments and no
trailing slash; the empty path cleans to `.`. -/
def goPathCleanData (p : List Char) : List Char :=
  match p with
  | [] => ['.']
  | c :: _ =>
      let rooted := c = '/'
      let out := joinSlash (cleanSegs (decide rooted) [] (splitSlash p))
      if rooted then '/' :: out
      else if out = [] then ['.'] else out

/-- Go `path.Clean` on strings. -/
def goPathClean (p : String) : String := ⟨goPathCleanData p.data⟩

/-- Go `path.Join(a, b)` (used at src/main.go:315): join the elements
starting from the first non-empty one with a slash and clean the
result; all-empty input yields the empty string. -/
def goPathJoin (a b : String) : String :=
  if a = "" then (if b = "" then "" else goPathClean b) else goPathClean (a ++ "/" ++ b)

/-- The path and raw query of a URL (the parts src/main.go:308-318
manipulates). -/
structure UrlParts where
  path : String
  rawQuery : String
deriving DecidableEq

/-- The URL rewrite performed by `rawRewriter` (src/main.go:314-318):
the outbound path is `path.Join` of the configured API base path and the
inbound path with its first 5 bytes (`/raw/`) dropped; the outbound raw
query is the inbound raw query. -/
def rawRewriteURL (apiPath : String) (u : UrlParts) : UrlParts :=
  ⟨goPathJoin apiPath ⟨u.path.data.drop 5⟩, u.rawQuery⟩

/-- The parts of an `http.Request` touched by the core: its URL, the
three headers (each a list of added values, in order), and the host part
of the remote address. -/
structure ProxyRequest where
  url : UrlParts
  headerAuthorization : List String
  headerUserAgent : List String
  headerXForwardedFor : List String
  remoteAddrHost : String
deriving DecidableEq

/-- `setAuthorizationHeaders` (src/main.go:467-478): on the new request
`nr` it adds `Authorization: Bearer <t>` and `User-Agent: Tyro`; for
`X-Forwarded-For` it copies the originating request's first value when
present, otherwise the host part of the originating remote address
(`Header.Get` returns the first value, or the empty string). -/
def setAuthorizationHeaders (nr origReq : ProxyRequest) (t : String) : ProxyRequest :=
  ⟨nr.url,
   nr.headerAuthorization ++ ["Bearer " ++ t],
   nr.headerUserAgent ++ ["Tyro"],
   if origReq.headerXForwardedFor.headD "" = "" then
     nr.headerXForwardedFor ++ [origReq.remoteAddrHost]
   else
     nr.headerXForwardedFor ++ [origReq.headerXForwardedFor.headD ""],
   nr.remoteAddrHost⟩

/-- The reverse-proxy director `rawRewriter` (src/main.go:296-325) as a
function of the token obtained from `get()` and the inbound request: it
always rewrites the URL in place and then calls
`setAuthorizationHeaders(r, r, token)` on the same request.  Sentinel
tokens are only logged (src/main.go:300-306); there is no error path. -/
def rawRewriter (apiPath : String) (token : String) (r : ProxyRequest) : ProxyRequest :=
  setAuthorizationHeaders
    ⟨rawRewriteURL apiPath r.url, r.headerAuthorization, r.headerUserAgent,
     r.headerXForwardedFor, r.remoteAddrHost⟩
    ⟨rawRewriteURL apiPath r.url, r.headerAuthorization, r.headerUserAgent,
     r.headerXForwardedFor, r.remoteAddrHost⟩
    token

/-- Modelled from the spec (claim C8's wording): the call number with
every occurrence of the literal substrings `|a` and `|b` replaced by a
single space — a single left-to-right scan treating the two markers
symmetrically. -/
def specStripMarkers : List Char → List Char
  | [] => []
  | [c] => [c]
  | c :: c2 :: rest2 =>
      if c = '|' ∧ (c2 = 'a' ∨ c2 = 'b') then ' ' :: specStripMarkers rest2
      else c :: specStripMarkers (c2 :: rest2)

/-- Modelled from the spec (claim C7's wording): status is `IN LIBRARY`
for the zero due date, else `DUE ` followed by the due date as
`Month D, YYYY` — full month name, unpadded day, four-digit year. -/
def specMonthName : Nat → String
  | 1 => "January"
  | 2 => "February"
  | 3 => "March"
  | 4 => "April"
  | 5 => "May"
  | 6 => "June"
  | 7 => "July"
  | 8 => "August"
  | 9 => "September"
  | 10 => "October"
  | 11 => "November"
  | 12 => "December"
  | _ => ""

/-- Modelled from the spec (claim C7's wording): the emitted status for
a due date. -/
def specStatusOfDueDate (d : GoTime) : String :=
  if d = zeroGoTime then "IN LIBRARY"
  else "DUE " ++ specMonthName d.month ++ " " ++ Nat.repr d.day ++ ", " ++ pad4 d.year

/-- A path segment that Go `path.Clean` keeps verbatim: non-empty, not a
dot segment, and containing no slash. -/
def GoodSeg (s : List Char) : Prop := s ≠ [] ∧ s ≠ ['.'] ∧ s ≠ ['.', '.'] ∧ '/' ∉ s

instance (s : List Char) : Decidable (GoodSeg s) := by
  unfold GoodSeg
  exact inferInstance

/-- Refresh-start and refresh-completion accounting across one step: a
`recvTrigger` raises the in-flight count from 0 to 1, a completion
lowers it from 1 to 0, every other event leaves it unchanged. -/
theorem step_flight (st st1 : BrokerState) (e : Ev) (h : step st e = some st1) :
    flightN st1 + (if isDone e then 1 else 0) = flightN st + (if isStart e then 1 else 0) := by
  cases e with
  | trigger =>
      simp only [step, Option.some.injEq] at h
      subst h
      simp [flightN, isDone, isStart]
  | recvTrigger =>
      simp only [step] at h
      split at h
      · rename_i hc
        simp only [Option.some.injEq] at h
        subst h
        simp [flightN, isDone, isStart, hc.1]
      · exact absurd h (by simp)
  | get s =>
      simp only [step] at h
      split at h
      · simp only [Option.some.injEq] at h
        subst h
        simp [flightN, isDone, isStart]
      · exact absurd h (by simp)
  | ok t =>
      simp only [step] at h
      split at h
      · rename_i hc
        simp only [Option.some.injEq] at h
        subst h
        simp [flightN, isDone, isStart, hc]
      · exact absurd h (by simp)
  | fail =>
      simp only [step] at h
      split at h
      · rename_i hc
        simp only [Option.some.injEq] at h
        subst h
        simp [flightN, isDone, isStart, hc]
      · exact absurd h (by simp)

/-- Refresh accounting along a whole run. -/
theorem run_flight (tr : List Ev) : ∀ st st1 : BrokerState, run st tr = some st1 →
    flightN st1 + dones tr = flightN st + starts tr := by
  induction tr with
  | nil =>
      intro st st1 h
      simp only [run, Option.some.injEq] at h
      subst h
      simp [starts, dones]
  | cons e tr ih =>
      intro st st1 h
      cases hstep : step st e with
      | none =>
          simp only [run, hstep] at h
          exact Option.noConfusion h
      | some st2 =>
          simp only [run, hstep] at h
          have h2 := ih st2 st1 h
          have h1 := step_flight st st2 e hstep
          have hd : dones (e :: tr) = dones tr + (if isDone e then 1 else 0) := by
            simp [dones, List.countP_cons]
          have hst : starts (e :: tr) = starts tr + (if isStart e then 1 else 0) := by
            simp [starts, List.countP_cons]
          rw [hd, hst]
          omega

/-- In the `dead` phase every enabled event preserves the phase and the
served stale token, no refresh can start, and blocked trigger senders
stay blocked. -/
theorem step_dead (st st1 : BrokerState) (e : Ev) (hd : st.phase = Phase.dead)
    (h : step st e = some st1) :
    st1.phase = Phase.dead ∧ isStart e = false ∧ st.pending ≤ st1.pending
      ∧ st1.oldToken = st.oldToken := by
  cases e with
  | trigger =>
      simp only [step, Option.some.injEq] at h
      subst h
      simp [isStart, hd]
  | recvTrigger =>
      simp only [step] at h
      split at h
      · rename_i hc
        rw [hd] at hc
        exact absurd hc.1 (by simp)
      · exact absurd h (by simp)
  | get s =>
      simp only [step] at h
      split at h
      · simp only [Option.some.injEq] at h
        subst h
        simp [isStart, hd]
      · exact absurd h (by simp)
  | ok t =>
      simp only [step] at h
      split at h
      · rename_i hc
        rw [hd] at hc
        exact absurd hc (by simp)
      · exact absurd h (by simp)
  | fail =>
      simp only [step] at h
      split at h
      · rename_i hc
        rw [hd] at hc
        exact absurd hc (by simp)
      · exact absurd h (by simp)

/-- The `dead` phase is absorbing along runs: no refresh ever starts
again, and the pending count never decreases. -/
theorem run_dead (tr : List Ev) : ∀ st st1 : BrokerState, run st tr = some st1 →
    st.phase = Phase.dead →
    st1.phase = Phase.dead ∧ starts tr = 0 ∧ st.pending ≤ st1.pending := by
  induction tr with
  | nil =>
      intro st st1 h hd
      simp only [run, Option.some.injEq] at h
      subst h
      exact ⟨hd, by simp [starts], Nat.le_refl _⟩
  | cons e tr ih =>
      intro st st1 h hd
      cases hstep : step st e with
      | none =>
          simp only [run, hstep] at h
          exact Option.noConfusion h
      | some st2 =>
          simp only [run, hstep] at h
          obtain ⟨hp2, hse, hpen, _⟩ := step_dead st st2 e hd hstep
          obtain ⟨hp1, hs1, hpen1⟩ := ih st2 st1 h hp2
          refine ⟨hp1, ?_, Nat.le_trans hpen hpen1⟩
          simp [starts, List.countP_cons, hse, hs1]
          simpa [starts] using hs1

/-- As long as no successful refresh has happened, the broker's local
token and the interim-served token are still `uninitialized` (even after
a failure, where only the unobservable local is overwritten). -/
theorem run_noOk (tr : List Ev) : ∀ st st1 : BrokerState, run st tr = some st1 →
    tr.all (fun e => !(isOk e)) = true →
    st.oldToken = "uninitialized" → (st.phase ≠ Phase.dead → st.token = "uninitialized") →
    st1.oldToken = "uninitialized" ∧ (st1.phase ≠ Phase.dead → st1.token = "uninitialized") := by
  induction tr with
  | nil =>
      intro st st1 h _ h1 h2
      simp only [run, Option.some.injEq] at h
      subst h
      exact ⟨h1, h2⟩
  | cons e tr ih =>
      intro st st1 h hall h1 h2
      rw [List.all_cons, Bool.and_eq_true] at hall
      cases hstep : step st e with
      | none =>
          simp only [run, hstep] at h
          exact Option.noConfusion h
      | some st2 =>
          simp only [run, hstep] at h
          refine ih st2 st1 h hall.2 ?_ ?_
          all_goals
            cases e with
            | trigger =>
                simp only [step, Option.some.injEq] at hstep
                subst hstep
                first
                  | exact h1
                  | exact h2
            | recvTrigger =>
                simp only [step] at hstep
                split at hstep
                · rename_i hc
                  simp only [Option.some.injEq] at hstep
                  subst hstep
                  first
                    | exact h2 (by simp [hc.1])
                    | · intro _
                        exact h2 (by simp [hc.1])
                · exact absurd hstep (by simp)
            | get s =>
                simp only [step] at hstep
                split at hstep
                · simp only [Option.some.injEq] at hstep
                  subst hstep
                  first
                    | exact h1
                    | exact h2
                · exact absurd hstep (by simp)
            | ok t =>
                simp [isOk] at hall
            | fail =>
                simp only [step] at hstep
                split at hstep
                · simp only [Option.some.injEq] at hstep
                  subst hstep
                  first
                    | exact h1
                    | · intro hcon
                        exact absurd rfl hcon
                · exact absurd hstep (by simp)

/-- While a refresh stays outstanding (no completion event), the phase
stays `refreshing` and the interim goroutine keeps serving the same
captured token. -/
theorem run_stale (tr : List Ev) : ∀ st st1 : BrokerState, run st tr = some st1 →
    st.phase = Phase.refreshing → tr.all (fun e => !(isDone e)) = true →
    st1.phase = Phase.refreshing ∧ st1.oldToken = st.oldToken := by
  induction tr with
  | nil =>
      intro st st1 h hp _
      simp only [run, Option.some.injEq] at h
      subst h
      exact ⟨hp, rfl⟩
  | cons e tr ih =>
      intro st st1 h hp hall
      rw [List.all_cons, Bool.and_eq_true] at hall
      cases hstep : step st e with
      | none =>
          simp only [run, hstep] at h
          exact Option.noConfusion h
      | some st2 =>
          simp only [run, hstep] at h
          cases e with
          | trigger =>
              simp only [step, Option.some.injEq] at hstep
              subst hstep
              exact ih ⟨st.token, st.oldToken, st.phase, st.pending + 1⟩ st1 h hp hall.2
          | recvTrigger =>
              simp only [step] at hstep
              split at hstep
              · rename_i hc
                rw [hp] at hc
                exact absurd hc.1 (by simp)
              · exact absurd hstep (by simp)
          | get s =>
              simp only [step] at hstep
              split at hstep
              · simp only [Option.some.injEq] at hstep
                subst hstep
                exact ih _ st1 h hp hall.2
              · exact absurd hstep (by simp)
          | ok t => simp [isDone] at hall
          | fail => simp [isDone] at hall

/-- C1: evidence against the claim, evaluated on the code model.  After
a first successful refresh fetched `"tok123"`, a second refresh fails:
the `tokener` goroutine sets its local `token` to `""` and returns
(src/main.go:392-394), but the leaked interim goroutine keeps serving
the stale `"tok123"`, so a subsequent `get()` returns `"tok123"`, not
the empty string; a status request with that stale token does call the
item endpoint; and the broker can never again receive a refresh
trigger.  The claim's promised behaviour (empty-string sentinel, 500
with no item call) does not occur. -/
theorem C1_failure_evidence :
    run initState [Ev.trigger, Ev.recvTrigger, Ev.ok "tok123", Ev.trigger, Ev.recvTrigger, Ev.fail]
        = some ⟨"", "tok123", Phase.dead, 0⟩
    ∧ observe ⟨"", "tok123", Phase.dead, 0⟩ = "tok123"
    ∧ (("tok123" : String) == "") = false
    ∧ (statusHandler "tok123" "/status/12345" (Upstream.resp 200 (some []))).events
        = [HEv.callItem "12345", HEv.wrote 200]
    ∧ step ⟨"", "tok123", Phase.dead, 1⟩ Ev.recvTrigger = none := by
  refine ⟨by decide, by decide, by decide, by decide, by decide⟩

/-- C2 (counterexample to idempotence): a `triggerRefresh` issued while
a refresh is outstanding is not a no-op.  In the trace below the second
`trigger` arrives while the first refresh is in flight; after that
refresh completes, the blocked send is received and a second refresh
starts: two refresh starts for a claim that allows only one. -/
theorem C2_counterexample :
    run initState [Ev.trigger, Ev.recvTrigger, Ev.trigger, Ev.ok "t1", Ev.recvTrigger]
        = some ⟨"t1", "t1", Phase.refreshing, 0⟩
    ∧ starts [Ev.trigger, Ev.recvTrigger, Ev.trigger, Ev.ok "t1", Ev.recvTrigger] = 2
    ∧ flightN ⟨"t1", "t1", Phase.refreshing, 0⟩ = 1 := by
  refine ⟨by decide, by decide, by decide⟩

/-- C2 (amended): the serialization half of the claim holds — along any
execution the number of refresh starts equals the number of completions
plus the number of token-endpoint calls currently in flight, and that
in-flight count is at most one at every instant (this holds for every
reachable state, hence at every prefix of every execution).  The
idempotence half is false (see the counterexample): a trigger sent
during an outstanding refresh blocks and starts an additional refresh
after the current one completes. -/
theorem C2_serialized (tr : List Ev) (st : BrokerState) (h : run initState tr = some st) :
    starts tr = dones tr + flightN st ∧ flightN st ≤ 1 := by
  have hf := run_flight tr initState st h
  have h0 : flightN initState = 0 := by decide
  constructor
  · omega
  · unfold flightN
    split <;> omega

/-- C2 witness: the amended statement evaluated on a concrete trace. -/
theorem C2_serialized_witness :
    starts [Ev.trigger, Ev.recvTrigger]
        = dones [Ev.trigger, Ev.recvTrigger]
          + flightN ⟨"uninitialized", "uninitialized", Phase.refreshing, 0⟩
    ∧ flightN ⟨"uninitialized", "uninitialized", Phase.refreshing, 0⟩ ≤ 1 :=
  C2_serialized [Ev.trigger, Ev.recvTrigger]
    ⟨"uninitialized", "uninitialized", Phase.refreshing, 0⟩ (by decide)

/-- C3: after any refresh failure the broker loop is dead: the phase is
absorbing, no later send on `refreshTokenChan` is ever received (zero
refresh starts in every continuation), and blocked senders stay blocked
(`pending` never decreases).  Moreover the 401 path of the status
handler writes its 500 response strictly before initiating the trigger
send (the final event), so such a handler responds and then blocks
forever. -/
theorem C3_broker_halts (st st1 : BrokerState) (h : step st Ev.fail = some st1) :
    st1.phase = Phase.dead ∧ st1.token = ""
    ∧ (∀ tr st2, run st1 tr = some st2 →
        st2.phase = Phase.dead ∧ starts tr = 0 ∧ st1.pending ≤ st2.pending)
    ∧ (∀ token p body, token ≠ "uninitialized" → token ≠ "" → extractBibID p ≠ "" →
        (statusHandler token p (Upstream.resp 401 body)).events
          = [HEv.callItem (extractBibID p), HEv.wrote 500, HEv.sendTrigger]) := by
  have hdead : st1.phase = Phase.dead ∧ st1.token = "" := by
    simp only [step] at h
    split at h
    · simp only [Option.some.injEq] at h
      subst h
      exact ⟨rfl, rfl⟩
    · exact absurd h (by simp)
  refine ⟨hdead.1, hdead.2, ?_, ?_⟩
  · intro tr st2 hrun
    exact run_dead tr st1 st2 hrun hdead.1
  · intro token p body h1 h2 h3
    simp [statusHandler, h1, h2, h3]

/-- C3 witness: the theorem applied to a concrete failing refresh and a
concrete continuation trace. -/
theorem C3_broker_halts_witness :
    (⟨"", "t", Phase.dead, 1⟩ : BrokerState).phase = Phase.dead
    ∧ starts [Ev.trigger, Ev.get "t"] = 0
    ∧ (statusHandler "tokenT" "/status/7" (Upstream.resp 401 none)).events
        = [HEv.callItem "7", HEv.wrote 500, HEv.sendTrigger] := by
  have h := C3_broker_halts ⟨"t", "t", Phase.refreshing, 1⟩ ⟨"", "t", Phase.dead, 1⟩ (by decide)
  refine ⟨h.1, ?_, ?_⟩
  · exact (h.2.2.1 [Ev.trigger, Ev.get "t"] ⟨"", "t", Phase.dead, 2⟩ (by decide)).2.1
  · exact h.2.2.2 "tokenT" "/status/7" none (by decide) (by decide) (by decide)

/-- C6: fresh-start and serve-stale semantics of `get()`.  Along any
execution from the initial state: (1) if no refresh has succeeded yet,
`get()` returns `"uninitialized"`; (2) immediately after a refresh
succeeds with token `t`, `get()` returns `t`; (3) starting a refresh
does not change what `get()` returns (the interim goroutine serves the
token that was current when the refresh began); (4) for as long as a
refresh stays outstanding, `get()` keeps returning that same token. -/
theorem C6_get_semantics (tr : List Ev) (st : BrokerState) (h : run initState tr = some st) :
    ((tr.all fun e => !(isOk e)) = true → observe st = "uninitialized")
    ∧ (∀ t st1, step st (Ev.ok t) = some st1 → observe st1 = t)
    ∧ (∀ st1, step st Ev.recvTrigger = some st1 → observe st1 = observe st)
    ∧ (st.phase = Phase.refreshing → ∀ tr2 st2, (tr2.all fun e => !(isDone e)) = true →
        run st tr2 = some st2 → observe st2 = observe st) := by
  refine ⟨?_, ?_, ?_, ?_⟩
  · intro hall
    have hinv := run_noOk tr initState st h hall rfl (fun _ => rfl)
    cases hp : st.phase with
    | selecting => simp [observe, hp, hinv.2 (by simp [hp])]
    | refreshing => simp [observe, hp, hinv.1]
    | dead => simp [observe, hp, hinv.1]
  · intro t st1 hs
    simp only [step] at hs
    split at hs
    · simp only [Option.some.injEq] at hs
      subst hs
      simp [observe]
    · exact absurd hs (by simp)
  · intro st1 hs
    simp only [step] at hs
    split at hs
    · rename_i hc
      simp only [Option.some.injEq] at hs
      subst hs
      simp [observe, hc.1]
    · exact absurd hs (by simp)
  · intro hp tr2 st2 hall2 hrun2
    obtain ⟨hp2, hold⟩ := run_stale tr2 st st2 hrun2 hp hall2
    simp [observe, hp, hp2, hold]

/-- C6 witness: the semantics evaluated on concrete traces — during the
first refresh `get()` returns `uninitialized`; right after a success
with `"T9"` it returns `"T9"`; while a refresh stays outstanding the
observed token is unchanged. -/
theorem C6_get_semantics_witness :
    observe ⟨"uninitialized", "uninitialized", Phase.refreshing, 0⟩ = "uninitialized"
    ∧ observe ⟨"T9", "uninitialized", Phase.selecting, 0⟩ = "T9"
    ∧ observe ⟨"uninitialized", "uninitialized", Phase.refreshing, 1⟩
        = observe ⟨"uninitialized", "uninitialized", Phase.refreshing, 0⟩ := by
  have h := C6_get_semantics [Ev.trigger, Ev.recvTrigger]
    ⟨"uninitialized", "uninitialized", Phase.refreshing, 0⟩ (by decide)
  refine ⟨h.1 (by decide), ?_, ?_⟩
  · exact h.2.1 "T9" ⟨"T9", "uninitialized", Phase.selecting, 0⟩ (by decide)
  · exact h.2.2.2 rfl [Ev.trigger]
      ⟨"uninitialized", "uninitialized", Phase.refreshing, 1⟩ (by decide) (by decide)

/-- Unfold lemma: replacing `|a` steps over a head character other than
the bar. -/
theorem goReplaceBarA_cons (c : Char) (x : List Char) (h : ¬ c = '|') :
    goReplaceBarA (c :: x) = c :: goReplaceBarA x := by
  cases x with
  | nil => rfl
  | cons d t =>
      simp only [goReplaceBarA]
      rw [if_neg]
      intro hc
      exact h hc.1

/-- Unfold lemma: replacing `|a` steps over a two-character head that is
not the `|a` pattern. -/
theorem goReplaceBarA_cons2 (c c2 : Char) (x : List Char) (h : ¬ (c = '|' ∧ c2 = 'a')) :
    goReplaceBarA (c :: c2 :: x) = c :: goReplaceBarA (c2 :: x) := by
  simp only [goReplaceBarA]
  rw [if_neg h]

/-- Unfold lemma: replacing `|b` steps over a head character other than
the bar. -/
theorem goReplaceBarB_cons (c : Char) (x : List Char) (h : ¬ c = '|') :
    goReplaceBarB (c :: x) = c :: goReplaceBarB x := by
  cases x with
  | nil => rfl
  | cons d t =>
      simp only [goReplaceBarB]
      rw [if_neg]
      intro hc
      exact h hc.1

/-- Unfold lemma: replacing `|b` steps over a bar whose successor list
does not start with `b`. -/
theorem goReplaceBarB_bar (x : List Char) (h : ∀ t, x ≠ 'b' :: t) :
    goReplaceBarB ('|' :: x) = '|' :: goReplaceBarB x := by
  cases x with
  | nil => rfl
  | cons d t =>
      simp only [goReplaceBarB]
      rw [if_neg]
      intro hc
      exact h t (by rw [hc.2])

/-- The output of the `|a` pass on a list starting with a bar never
starts with `b`: its head is either the bar itself or the space that
replaced a `|a` occurrence. -/
theorem goReplaceBarA_bar_head (c2 : Char) (r : List Char) (h : ¬ c2 = 'b') :
    ∀ t, goReplaceBarA (c2 :: r) ≠ 'b' :: t := by
  cases r with
  | nil =>
      intro t hc
      simp only [goReplaceBarA, List.cons.injEq] at hc
      exact h hc.1
  | cons d r2 =>
      intro t
      simp only [goReplaceBarA]
      split
      · simp
      · simp [h]

/-- Unfold lemma for the spec-side one-pass strip. -/
theorem specStripMarkers_cons2 (c c2 : Char) (x : List Char)
    (h : ¬ (c = '|' ∧ (c2 = 'a' ∨ c2 = 'b'))) :
    specStripMarkers (c :: c2 :: x) = c :: specStripMarkers (c2 :: x) := by
  simp only [specStripMarkers]
  rw [if_neg h]

/-- The sequential pair of Go replaces (first `|a`, then `|b`) computes
exactly the spec's one-pass simultaneous strip of both markers. -/
theorem stripMarkers_eq (l : List Char) :
    goReplaceBarB (goReplaceBarA l) = specStripMarkers l := by
  induction l using specStripMarkers.induct with
  | case1 => rfl
  | case2 c =>
      by_cases hc : c = '|'
      · subst hc
        rfl
      · rw [goReplaceBarA_cons c [] hc, goReplaceBarB_cons c _ hc]
        rfl
  | case3 c c2 rest2 hcond ih =>
      obtain ⟨hc, hc2⟩ := hcond
      subst hc
      cases hc2 with
      | inl ha =>
          subst ha
          have h1 : goReplaceBarA ('|' :: 'a' :: rest2) = ' ' :: goReplaceBarA rest2 := by
            simp [goReplaceBarA]
          rw [h1, goReplaceBarB_cons ' ' _ (by decide), ih]
          simp [specStripMarkers]
      | inr hb =>
          subst hb
          have h1 : goReplaceBarA ('|' :: 'b' :: rest2) = '|' :: 'b' :: goReplaceBarA rest2 := by
            rw [goReplaceBarA_cons2 '|' 'b' rest2 (by decide),
              goReplaceBarA_cons 'b' rest2 (by decide)]
          have h2 : goReplaceBarB ('|' :: 'b' :: goReplaceBarA rest2)
              = ' ' :: goReplaceBarB (goReplaceBarA rest2) := by
            simp [goReplaceBarB]
          rw [h1, h2, ih]
          simp [specStripMarkers]
  | case4 c c2 rest2 hcond ih =>
      rw [specStripMarkers_cons2 c c2 rest2 hcond]
      by_cases hc : c = '|'
      · subst hc
        have hc2a : ¬ c2 = 'a' := fun hx => hcond ⟨rfl, Or.inl hx⟩
        have hc2b : ¬ c2 = 'b' := fun hx => hcond ⟨rfl, Or.inr hx⟩
        rw [goReplaceBarA_cons2 '|' c2 rest2 (fun hx => hc2a hx.2),
          goReplaceBarB_bar _ (goReplaceBarA_bar_head c2 rest2 hc2b), ih]
      · rw [goReplaceBarA_cons c _ hc, goReplaceBarB_cons c _ hc, ih]

/-- C8: for every decoded item entry the emitted call number equals the
upstream call number with every occurrence of the literal substrings
`|a` and `|b` replaced by a single space (spec-side one-pass definition);
in particular the spec's example normalizes as stated. -/
theorem C8_callnumber (e : ItemEntry) :
    (transformEntry e).callNumber = ⟨specStripMarkers e.callNumber.data⟩
    ∧ normalizeCallNumber "PZ123 .A1|b2024" = "PZ123 .A1 2024" := by
  constructor
  · exact congrArg String.mk (stripMarkers_eq e.callNumber.data)
  · decide

/-- The Go month table and the spec's month table agree on real months. -/
theorem monthName_eq_spec (m : Nat) (h1 : 1 ≤ m) (h2 : m ≤ 12) :
    monthName m = specMonthName m := by
  interval_cases m <;> rfl

/-- C7: for every decoded item entry (so with a real month), the emitted
status is `IN LIBRARY` exactly for the zero due date, and otherwise
`DUE ` followed by the date as `Month D, YYYY` (the spec-side
definition). -/
theorem C7_status_format (e : ItemEntry)
    (hm1 : 1 ≤ e.dueDate.month) (hm2 : e.dueDate.month ≤ 12) :
    (transformEntry e).status = specStatusOfDueDate e.dueDate := by
  show (if e.dueDate.isZero then "IN LIBRARY" else "DUE " ++ formatJanuary2_2006 e.dueDate)
      = specStatusOfDueDate e.dueDate
  by_cases hz : e.dueDate = zeroGoTime
  · have hb : e.dueDate.isZero = true := by simp [GoTime.isZero, hz]
    rw [if_pos hb, specStatusOfDueDate, if_pos hz]
  · have hb : e.dueDate.isZero = false := by simp [GoTime.isZero, hz]
    rw [if_neg (by simp [hb]), specStatusOfDueDate, if_neg hz, formatJanuary2_2006,
      monthName_eq_spec e.dueDate.month hm1 hm2]
    simp [String.append_assoc]

/-- C7 witness: an entry due 2024-05-01 yields `DUE May 1, 2024`; a
zero due date yields `IN LIBRARY`. -/
theorem C7_status_format_witness :
    (transformEntry ⟨"CN", ⟨2024, 5, 1, 0, 0, 0⟩, "Library"⟩).status = "DUE May 1, 2024"
    ∧ specStatusOfDueDate ⟨2024, 5, 1, 0, 0, 0⟩ = "DUE May 1, 2024"
    ∧ (transformEntry ⟨"CN", ⟨1, 1, 1, 0, 0, 0⟩, "Library"⟩).status = "IN LIBRARY" := by
  have h1 := C7_status_format ⟨"CN", ⟨2024, 5, 1, 0, 0, 0⟩, "Library"⟩ (by decide) (by decide)
  have h0 := C7_status_format ⟨"CN", ⟨1, 1, 1, 0, 0, 0⟩, "Library"⟩ (by decide) (by decide)
  exact ⟨h1.trans (by decide), by decide, h0.trans (by decide)⟩

/-- C4: whenever the item endpoint answers 401 (and the handler got that
far: non-sentinel token, non-empty bib ID), the handler issues exactly
one upstream call, writes a 500 response to its own caller, and then
initiates the refresh trigger before returning — in that order, with no
retry of the upstream request. -/
theorem C4_upstream401 (token p : String) (body : Option (List ItemEntry))
    (h1 : token ≠ "uninitialized") (h2 : token ≠ "") (h3 : extractBibID p ≠ "") :
    (statusHandler token p (Upstream.resp 401 body)).events
      = [HEv.callItem (extractBibID p), HEv.wrote 500, HEv.sendTrigger] := by
  simp [statusHandler, h1, h2, h3]

/-- C4 witness: the 401 path evaluated on a concrete request. -/
theorem C4_upstream401_witness :
    (statusHandler "goodToken" "/status/12345" (Upstream.resp 401 (some []))).events
      = [HEv.callItem (extractBibID "/status/12345"), HEv.wrote 500, HEv.sendTrigger] :=
  C4_upstream401 "goodToken" "/status/12345" (some []) (by decide) (by decide) (by decide)

/-- C5 (counterexample): with the broker in the `uninitialized` sentinel
state and an empty record identifier, the handler responds 500, not 400
— the sentinel checks at src/main.go:169-179 run before the identifier
check at src/main.go:183, so the claimed response is not independent of
the credential state. -/
theorem C5_counterexample :
    (statusHandler "uninitialized" "/status/" Upstream.transportError).events = [HEv.wrote 500]
    ∧ ((statusHandler "uninitialized" "/status/" Upstream.transportError).events.contains
        (HEv.wrote 400)) = false
    ∧ extractBibID "/status/" = "" := by
  refine ⟨by decide, by decide, by decide⟩

/-- C5 (amended): for an empty record identifier the handler never calls
the item endpoint; it responds 400 when the credential is a non-sentinel
token, and 500 (from the earlier sentinel check) when the credential is
a sentinel. -/
theorem C5_empty_bib (token p : String) (up : Upstream) (h3 : extractBibID p = "") :
    (token ≠ "uninitialized" → token ≠ "" → (statusHandler token p up).events = [HEv.wrote 400])
    ∧ (token = "uninitialized" ∨ token = "" → (statusHandler token p up).events = [HEv.wrote 500])
    ∧ (∀ b, ((statusHandler token p up).events.contains (HEv.callItem b)) = false) := by
  by_cases hu : token = "uninitialized"
  · refine ⟨fun h1 _ => absurd hu h1, fun _ => by simp [statusHandler, hu], fun b => ?_⟩
    simp [statusHandler, hu, List.contains]
  · by_cases he : token = ""
    · refine ⟨fun _ h2 => absurd he h2, fun _ => by simp [statusHandler, hu, he], fun b => ?_⟩
      simp [statusHandler, hu, he, List.contains]
    · refine ⟨fun _ _ => by simp [statusHandler, hu, he, h3], fun hor => ?_, fun b => ?_⟩
      · rcases hor with h | h
        · exact absurd h hu
        · exact absurd h he
      · simp [statusHandler, hu, he, h3, List.contains]

/-- C5 witness: the amended statement evaluated with a valid token and
an empty identifier. -/
theorem C5_empty_bib_witness :
    (statusHandler "goodToken" "/status/" Upstream.transportError).events = [HEv.wrote 400] :=
  (C5_empty_bib "goodToken" "/status/" Upstream.transportError (by decide)).1
    (by decide) (by decide)

/-- Splitting on slashes always yields at least one segment. -/
theorem splitSlash_ne_nil (l : List Char) : splitSlash l ≠ [] := by
  cases l with
  | nil => simp [splitSlash]
  | cons c rest =>
      simp only [splitSlash]
      split
      · simp
      · split <;> simp

/-- Splitting distributes over concatenation at a slash. -/
theorem splitSlash_append (a b : List Char) :
    splitSlash (a ++ '/' :: b) = splitSlash a ++ splitSlash b := by
  induction a with
  | nil => simp [splitSlash]
  | cons c a2 ih =>
      have hstep : (c :: a2) ++ '/' :: b = c :: (a2 ++ '/' :: b) := rfl
      rw [hstep]
      by_cases hc : c = '/'
      · subst hc
        have e1 : splitSlash ('/' :: (a2 ++ '/' :: b)) = [] :: splitSlash (a2 ++ '/' :: b) := by
          simp [splitSlash]
        have e2 : splitSlash ('/' :: a2) = [] :: splitSlash a2 := by
          simp [splitSlash]
        rw [e1, e2, ih]
        rfl
      · obtain ⟨s, ss, hss⟩ : ∃ s ss, splitSlash a2 = s :: ss := by
          cases hsp : splitSlash a2 with
          | nil => exact absurd hsp (splitSlash_ne_nil a2)
          | cons s ss => exact ⟨s, ss, rfl⟩
        have e1 : splitSlash (c :: (a2 ++ '/' :: b))
            = match splitSlash (a2 ++ '/' :: b) with
              | [] => [[c]]
              | s :: ss => (c :: s) :: ss := by
          simp [splitSlash, hc]
        have e2 : splitSlash (c :: a2)
            = match splitSlash a2 with
              | [] => [[c]]
              | s :: ss => (c :: s) :: ss := by
          simp [splitSlash, hc]
        rw [e1, e2, ih, hss]
        rfl

/-- A slash-free list splits into itself as a single segment. -/
theorem splitSlash_no_slash (s : List Char) (h : '/' ∉ s) : splitSlash s = [s] := by
  induction s with
  | nil => rfl
  | cons c r ih =>
      have hc : ¬ c = '/' := by
        intro hc
        exact h (by simp [hc])
      have hr : '/' ∉ r := fun hm => h (by simp [hm])
      simp only [splitSlash, if_neg hc, ih hr]

/-- Joining a non-empty tail unfolds with a separating slash. -/
theorem joinSlash_cons (s : List Char) (rest : List (List Char)) (h : rest ≠ []) :
    joinSlash (s :: rest) = s ++ '/' :: joinSlash rest := by
  cases rest with
  | nil => exact absurd rfl h
  | cons s2 r2 => rfl

/-- Splitting inverts joining for slash-free segments. -/
theorem splitSlash_joinSlash (segs : List (List Char)) (hne : segs ≠ [])
    (h : ∀ s ∈ segs, '/' ∉ s) : splitSlash (joinSlash segs) = segs := by
  induction segs with
  | nil => exact absurd rfl hne
  | cons s rest ih =>
      cases rest with
      | nil => exact splitSlash_no_slash s (h s (by simp))
      | cons s2 rest2 =>
          rw [joinSlash_cons s (s2 :: rest2) (by simp), splitSlash_append,
            splitSlash_no_slash s (h s (by simp)),
            ih (by simp) (fun x hm => h x (by simp [hm]))]
          simp

/-- Joining distributes over concatenation of non-empty segment lists. -/
theorem joinSlash_append (xs ys : List (List Char)) (hx : xs ≠ []) (hy : ys ≠ []) :
    joinSlash (xs ++ ys) = joinSlash xs ++ '/' :: joinSlash ys := by
  induction xs with
  | nil => exact absurd rfl hx
  | cons s rest ih =>
      cases rest with
      | nil =>
          simp only [List.cons_append, List.nil_append]
          rw [joinSlash_cons s ys hy]
          rfl
      | cons s2 r2 =>
          have hne : (s2 :: r2 : List (List Char)) ≠ [] := by simp
          rw [List.cons_append, joinSlash_cons s ((s2 :: r2) ++ ys) (by simp),
            ih hne, joinSlash_cons s (s2 :: r2) hne]
          simp [List.append_assoc]

/-- The cleaning pass keeps a list of good segments verbatim (appended
after the already-kept segments). -/
theorem cleanSegs_all_good (rooted : Bool) (segs : List (List Char)) :
    ∀ acc, (∀ s ∈ segs, GoodSeg s) → (∀ s ∈ acc, ¬ s = ['.', '.']) →
    cleanSegs rooted acc segs = acc.reverse ++ segs := by
  induction segs with
  | nil =>
      intro acc _ _
      simp [cleanSegs]
  | cons seg rest ih =>
      intro acc hs ha
      obtain ⟨g1, g2, g3, g4⟩ := hs seg (by simp)
      have h1 : ¬(seg = [] ∨ seg = ['.']) := by
        rintro (x | x)
        · exact g1 x
        · exact g2 x
      simp only [cleanSegs, if_neg h1, if_neg g3]
      rw [ih (seg :: acc) (fun x hm => hs x (by simp [hm])) ?_]
      · simp
      · intro x hm
        rcases List.mem_cons.mp hm with hx | hx
        · subst hx
          exact g3
        · exact ha x hx

/-- Cleaning a rooted path built from good segments: the leading empty
segment from the root slash is skipped and everything else is kept. -/
theorem goPathCleanData_rooted (x : List Char) :
    goPathCleanData ('/' :: x)
      = '/' :: joinSlash (cleanSegs true [] (splitSlash ('/' :: x))) := by
  simp [goPathCleanData]

/-- C9 (counterexample): the rewrite does not preserve path segments
exactly.  For the inbound path `/raw/items/../token` against the base
`/iii/sierra-api/v1/`, Go's `path.Join` cleans the joined path: the
`items` segment present in the inbound suffix is absent from the
outbound path (the `..` consumed it).  The query string is preserved. -/
theorem C9_counterexample :
    (rawRewriteURL "/iii/sierra-api/v1/" ⟨"/raw/items/../token", "a=1"⟩).path
        = "/iii/sierra-api/v1/token"
    ∧ ((splitSlash ("/raw/items/../token".data.drop 5)).contains ['i', 't', 'e', 'm', 's']) = true
    ∧ ((splitSlash "/iii/sierra-api/v1/token".data).contains ['i', 't', 'e', 'm', 's']) = false
    ∧ (rawRewriteURL "/iii/sierra-api/v1/" ⟨"/raw/items/../token", "a=1"⟩).rawQuery = "a=1" := by
  refine ⟨by decide, by decide, by decide, by decide⟩

/-- C9 (amended): the outbound URL is the upstream base joined with the
inbound path minus the `/raw/` prefix through Go's lexical `path.Join`,
which cleans the result; when the base is a cleaned rooted path and the
suffix is already clean (non-empty segments, no `.` or `..`, no
leading, trailing or doubled slash), the join is plain concatenation
with a single separating slash — segments are preserved exactly — and
the query string is always carried over unchanged. -/
theorem C9_clean_join (bsegs ssegs : List (List Char)) (q : String)
    (hb : ∀ s ∈ bsegs, GoodSeg s) (hs : ∀ s ∈ ssegs, GoodSeg s)
    (hbne : bsegs ≠ []) (hsne : ssegs ≠ []) :
    rawRewriteURL ⟨'/' :: joinSlash bsegs⟩
        ⟨⟨'/' :: 'r' :: 'a' :: 'w' :: '/' :: joinSlash ssegs⟩, q⟩
      = ⟨⟨'/' :: (joinSlash bsegs ++ '/' :: joinSlash ssegs)⟩, q⟩ := by
  unfold rawRewriteURL
  congr 1
  show goPathJoin ⟨'/' :: joinSlash bsegs⟩ ⟨joinSlash ssegs⟩
      = ⟨'/' :: (joinSlash bsegs ++ '/' :: joinSlash ssegs)⟩
  have hne : (⟨'/' :: joinSlash bsegs⟩ : String) ≠ "" := by
    intro hcon
    have hd := congrArg String.data hcon
    simp at hd
  rw [goPathJoin, if_neg hne]
  have happ : (⟨'/' :: joinSlash bsegs⟩ : String) ++ "/" ++ ⟨joinSlash ssegs⟩
      = ⟨'/' :: (joinSlash bsegs ++ '/' :: joinSlash ssegs)⟩ := by
    apply congrArg String.mk
    simp
  rw [happ, goPathClean]
  apply congrArg String.mk
  rw [goPathCleanData_rooted]
  have hsplit : splitSlash ('/' :: (joinSlash bsegs ++ '/' :: joinSlash ssegs))
      = [] :: (bsegs ++ ssegs) := by
    have h0 : splitSlash ('/' :: (joinSlash bsegs ++ '/' :: joinSlash ssegs))
        = [] :: splitSlash (joinSlash bsegs ++ '/' :: joinSlash ssegs) := by
      simp [splitSlash]
    rw [h0, splitSlash_append,
      splitSlash_joinSlash bsegs hbne (fun x hm => (hb x hm).2.2.2),
      splitSlash_joinSlash ssegs hsne (fun x hm => (hs x hm).2.2.2)]
  rw [hsplit]
  have hskip : cleanSegs true [] ([] :: (bsegs ++ ssegs))
      = cleanSegs true [] (bsegs ++ ssegs) := by
    simp [cleanSegs]
  rw [hskip, cleanSegs_all_good true (bsegs ++ ssegs) []
    (fun x hm => by
      rcases List.mem_append.mp hm with hx | hx
      · exact hb x hx
      · exact hs x hx)
    (by simp)]
  simp [joinSlash_append bsegs ssegs hbne hsne]

/-- C9 witness: the amended statement evaluated on a concrete clean
request. -/
theorem C9_clean_join_witness :
    rawRewriteURL "/v1" ⟨"/raw/items", "bibIds=5"⟩ = ⟨"/v1/items", "bibIds=5"⟩ := by
  have h := C9_clean_join [['v', '1']] [['i', 't', 'e', 'm', 's']] "bibIds=5"
    (by decide) (by decide) (by decide) (by decide)
  exact h

/-- C10: on a sentinel credential (`uninitialized` or the empty string)
the raw proxy director still rewrites the URL and forwards the request,
appending exactly `Bearer uninitialized` or `Bearer ` as the
Authorization header value and `Tyro` as the User-Agent — there is no
error path for a missing token (the sentinel is only logged). -/
theorem C10_sentinel_forwarding (apiPath : String) (r : ProxyRequest) (t : String)
    (h : t = "uninitialized" ∨ t = "") :
    (rawRewriter apiPath t r).headerAuthorization = r.headerAuthorization ++ ["Bearer " ++ t]
    ∧ (rawRewriter apiPath t r).url = rawRewriteURL apiPath r.url
    ∧ (rawRewriter apiPath t r).headerUserAgent = r.headerUserAgent ++ ["Tyro"]
    ∧ (t = "uninitialized" →
        (rawRewriter apiPath t r).headerAuthorization
          = r.headerAuthorization ++ ["Bearer uninitialized"])
    ∧ (t = "" →
        (rawRewriter apiPath t r).headerAuthorization
          = r.headerAuthorization ++ ["Bearer "]) := by
  refine ⟨rfl, rfl, rfl, ?_, ?_⟩
  · intro ht
    subst ht
    rfl
  · intro ht
    subst ht
    rfl

/-- C10 witness: the director evaluated on a concrete request with each
sentinel. -/
theorem C10_sentinel_forwarding_witness :
    (rawRewriter "/v1" "uninitialized"
        ⟨⟨"/raw/x", "q"⟩, [], [], [], "1.2.3.4"⟩).headerAuthorization
      = ["Bearer uninitialized"] := by
  have h := C10_sentinel_forwarding "/v1" ⟨⟨"/raw/x", "q"⟩, [], [], [], "1.2.3.4"⟩
    "uninitialized" (Or.inl rfl)
  exact h.2.2.2.1 rfl

end Tyro
